import Mathlib

/-!
Verification of the natural-language specification of two modules of the
repository against their code:

* `src/vs/platform/telemetry/common/telemetryUtils.ts` — the telemetry
  redaction utilities (`flattenKeys`/`flatKeys`, `flattenValues`,
  `LogAppender`, `combinedAppender`), embedded over an explicit model of
  JavaScript values.
* `src/vs/workbench/browser/parts/compositePart.ts` — the composite
  activation manager (`openComposite`, `doOpenComposite`, `createComposite`,
  `showComposite`, `hideActiveComposite`, `removeComposite`), embedded as a
  state machine with explicit state passing.  The open sequence takes a
  `nested : CState → CState` argument standing for arbitrary code that the
  composite factory (`descriptor.instantiate`) may run synchronously, which
  is the source of the open-token races the code guards against.
-/

/-! ## A model of JavaScript values

Numbers are modelled as `Int` (the telemetry code never exercises
non-integral or NaN arithmetic); property order of an object is the
insertion order of its field list, matching `Object.keys` enumeration
order for string keys. -/

mutual

inductive JSValue where
  | undefined : JSValue
  | null : JSValue
  | bool : Bool → JSValue
  | num : Int → JSValue
  | str : String → JSValue
  | arr : JSList → JSValue
  | obj : JSFields → JSValue

inductive JSList where
  | nil : JSList
  | cons : JSValue → JSList → JSList

inductive JSFields where
  | fnil : JSFields
  | fcons : String → JSValue → JSFields → JSFields

end

/-- JavaScript truthiness: `undefined`, `null`, `false`, `0` and `""` are
falsy, everything else (including `[]` and `{}`) is truthy. -/
def isTruthy : JSValue → Bool
  | .undefined => false
  | .null => false
  | .bool b => b
  | .num n => n != 0
  | .str s => s != ""
  | .arr _ => true
  | .obj _ => true

/-- `typeof v === 'object'` holds for plain objects, arrays and `null`. -/
def typeofIsObject : JSValue → Bool
  | .null => true
  | .arr _ => true
  | .obj _ => true
  | _ => false

/-- The keys of an object's field list, in enumeration order. -/
def JSFields.keys : JSFields → List String
  | .fnil => []
  | .fcons k _ rest => k :: rest.keys

/-- First binding of `key` in a field list, if any. -/
def JSFields.lookupKey : JSFields → String → Option JSValue
  | .fnil, _ => none
  | .fcons k v rest, key => if k = key then some v else rest.lookupKey key

/-- Field list as a plain list of pairs. -/
def JSFields.toList : JSFields → List (String × JSValue)
  | .fnil => []
  | .fcons k v rest => (k, v) :: rest.toList

/-- Concatenation of field lists. -/
def JSFields.fappend : JSFields → JSFields → JSFields
  | .fnil, g => g
  | .fcons k v rest, g => .fcons k v (rest.fappend g)

/-- Length of a JS array. -/
def JSList.len : JSList → Nat
  | .nil => 0
  | .cons _ tl => 1 + tl.len

/-- `i`-th element of a JS array, `undefined` when out of bounds. -/
def JSList.getIdx : JSList → Nat → JSValue
  | .nil, _ => .undefined
  | .cons hd _, 0 => hd
  | .cons _ tl, n + 1 => tl.getIdx n

/-- Decimal digit character for `n < 10`. -/
def natDigitChar (n : Nat) : Char := Char.ofNat (48 + n)

/-- Decimal digits of `n` (auxiliary, fuel-driven so that it reduces). -/
def natToDigitsAux : Nat → Nat → List Char
  | 0, _ => []
  | fuel + 1, n =>
    if n < 10 then [natDigitChar n]
    else natToDigitsAux fuel (n / 10) ++ [natDigitChar (n % 10)]

/-- Canonical decimal string of a natural number, `String(n)` in JS. -/
def natKey (n : Nat) : String := ⟨natToDigitsAux (n + 1) n⟩

/-- Numeric value of a decimal digit character, if it is one. -/
def digitVal? (c : Char) : Option Nat :=
  if 48 ≤ c.toNat ∧ c.toNat ≤ 57 then some (c.toNat - 48) else none

/-- Accumulating decimal parse of a character list; `none` on a non-digit. -/
def parseDigits : List Char → Nat → Option Nat
  | [], acc => some acc
  | c :: cs, acc =>
    match digitVal? c with
    | some d => parseDigits cs (acc * 10 + d)
    | none => none

/-- Parse of a canonical array-index string (as used by JS property access
on arrays: only the canonical decimal representation of `i` denotes the
index `i`; `"01"` or `""` do not). -/
def parseIndex (s : String) : Option Nat :=
  match s.data with
  | [] => none
  | ['0'] => some 0
  | '0' :: _ => none
  | l => parseDigits l 0

/-- JS property access `v[k]`, for the shapes of values the telemetry code
reads: object fields by key, array elements by canonical index string,
string characters by canonical index string.  Array/string methods,
`length` and prototype properties are not modelled; access to them yields
`undefined` here (none of the embedded code paths reads them). -/
def jsMember : JSValue → String → JSValue
  | .obj fields, k =>
    match fields.lookupKey k with
    | some v => v
    | none => .undefined
  | .arr xs, k =>
    match parseIndex k with
    | some i => xs.getIdx i
    | none => .undefined
  | .str s, k =>
    match parseIndex k with
    | some i =>
      if i < s.data.length then .str ⟨[s.data.getD i ' ']⟩ else .undefined
    | none => .undefined
  | _, _ => .undefined

/-- Characters of `p` lead the characters of `s`. -/
def charsLead : List Char → List Char → Bool
  | [], _ => true
  | _ :: _, [] => false
  | a :: as, b :: bs => a = b && charsLead as bs

/-- `s` begins with `pat` (the `^pat` anchor of a regular expression). -/
def strBeginsWith (pat s : String) : Bool := charsLead pat.data s.data

/-- Split a character list on a separator character; always at least one
group, mirroring JS `String.prototype.split`. -/
def splitOnChar (c : Char) : List Char → List (List Char)
  | [] => [[]]
  | x :: xs =>
    match splitOnChar c xs with
    | [] => [[]]
    | g :: gs => if x = c then [] :: g :: gs else (x :: g) :: gs

/-- `key.split('.')` of the source. -/
def splitDot (s : String) : List String :=
  (splitOnChar '.' s.data).map (fun l => ⟨l⟩)

/-! ## telemetryUtils.ts — `flattenKeys` / `flatKeys` -/

mutual

/-- Embedding of `flatKeys(result, prefix, value)` from telemetryUtils.ts,
with the push-only `result` accumulator made the function's return value
(appended in push order).  The recursive branch is taken exactly when
`value && typeof value === 'object' && !Array.isArray(value)`, i.e. for a
plain object (`null` is falsy, arrays are excluded); every other value
pushes the accumulated prefix. -/
def flatKeys (pfx : String) : JSValue → List String
  | .obj fields => flatKeysFields pfx fields
  | _ => [pfx]

/-- The `Object.keys(value).forEach` loop of `flatKeys`, over a field list:
each key extends the prefix with `prefix ? prefix + '.' + key : key`. -/
def flatKeysFields (pfx : String) : JSFields → List String
  | .fnil => []
  | .fcons k v rest =>
    flatKeys (if pfx = "" then k else pfx ++ "." ++ k) v ++ flatKeysFields pfx rest

end

/-- Embedding of `flattenKeys(value)` from telemetryUtils.ts: falsy input
returns `[]`, otherwise `flatKeys` runs with an empty prefix. -/
def flattenKeys (value : JSValue) : List String :=
  if isTruthy value then flatKeys "" value else []

/-! ## telemetryUtils.ts — `flattenValues` -/

/-- One step of the resolving reduce of `flattenValues`:
`tmp && typeof tmp === 'object' ? tmp[k] : undefined`. -/
def resolveStep (tmp : JSValue) (k : String) : JSValue :=
  if isTruthy tmp && typeofIsObject tmp then jsMember tmp k else .undefined

/-- Embedding of `flattenValues(value, keys)` from telemetryUtils.ts.  The
JS single-entry object `{[key]: v}` is modelled as the singleton pair list
`[(key, v)]`; the outer `reduce` pushes onto an accumulator in whitelist
order. -/
def flattenValues (value : JSValue) (keys : List String) : List (List (String × JSValue)) :=
  if isTruthy value = false then []
  else
    keys.foldl
      (fun array key =>
        match (splitDot key).foldl resolveStep value with
        | .undefined => array
        | v => array ++ [[(key, v)]])
      []

/-- Modelled from the spec's words (section 4.2): "for each path in
`whitelist`, attempts to resolve it against `tree` by descending one path
segment at a time; if resolution fails at any segment (missing key or
non-container intermediate value) the path is silently skipped; otherwise
emits a single-entry mapping `{path: value}`; order follows whitelist
order".  A key bound to an explicit `undefined` is indistinguishable from
a missing key in JS property access, so resolution "fails" exactly when
the segment-by-segment descent produces `undefined`. -/
def flattenValuesSpec (value : JSValue) (keys : List String) : List (List (String × JSValue)) :=
  keys.filterMap fun key =>
    match (splitDot key).foldl resolveStep value with
    | .undefined => none
    | v => some [(key, v)]

/-! ## telemetryUtils.ts — `LogAppender` -/

/-- `this.commonPropertiesRegex.test(key)` for the fixed pattern
`/^sessionID$|^version$|^timestamp$|^commitHash$|^common\./`. -/
def commonPropsTest (key : String) : Bool :=
  key = "sessionID" || key = "version" || key = "timestamp" ||
    key = "commitHash" || strBeginsWith "common." key

/-- `Object.keys(v)`: throws a `TypeError` for `undefined`/`null`, yields
the own enumerable keys of an object, the index keys of an array or a
string, and `[]` for the remaining primitives. -/
def objectKeys : JSValue → Except String (List String)
  | .undefined => .error "TypeError: Cannot convert undefined or null to object"
  | .null => .error "TypeError: Cannot convert undefined or null to object"
  | .obj fields => .ok fields.keys
  | .arr xs => .ok ((List.range xs.len).map natKey)
  | .str s => .ok ((List.range s.data.length).map natKey)
  | _ => .ok []

/-- Embedding of `LogAppender.log(eventName, data)`: builds `strippedData`
by iterating `Object.keys(data)` and copying every key that does not match
the common-properties pattern, then forwards
`('telemetry/' + eventName, strippedData)` to the underlying log service.
The result is the pair handed to `logService.trace`, or the thrown
`TypeError` when `Object.keys` throws. -/
def logAppenderLog (eventName : String) (data : JSValue) :
    Except String (String × List (String × JSValue)) :=
  match objectKeys data with
  | .error e => .error e
  | .ok keys =>
    .ok ("telemetry/" ++ eventName,
      keys.foldl
        (fun acc key =>
          if commonPropsTest key then acc else acc ++ [(key, jsMember data key)])
        [])

/-! ## telemetryUtils.ts — `combinedAppender` -/

/-- An appender wrapped by `combinedAppender`, abstracted to what the
claims observe: an identity for its `log` sink and the (abstract) time at
which its `dispose()` result resolves (`0` for an appender whose `dispose`
returns `undefined`, which `Promise.all` treats as already resolved). -/
structure MAppender where
  ident : Nat
  disposeTime : Nat
deriving Repr, DecidableEq

/-- Embedding of `combinedAppender(...appenders).log(e, d)`:
`appenders.forEach(a => a.log(e, d))`, recorded as the trace of `log`
invocations in `forEach` order. -/
def combinedAppenderLog (appenders : List MAppender) (e : String) (d : JSValue) :
    List (Nat × String × JSValue) :=
  appenders.foldl (fun calls a => calls ++ [(a.ident, e, d)]) []

/-- `Promise.all(ps)` resolves once every promise in `ps` has resolved. -/
def promiseAllResolveTime (ts : List Nat) : Nat := ts.foldl max 0

/-- Embedding of `combinedAppender(...appenders).dispose()`:
`Promise.all(appenders.map(a => a.dispose()))`, abstracted to the time at
which the combined promise resolves. -/
def combinedAppenderDisposeTime (appenders : List MAppender) : Nat :=
  promiseAllResolveTime (appenders.map (fun a => a.disposeTime))

/-! ## Spec-side leaf-path enumeration for `flattenKeys`

The spec (section 4.2) describes `flattenKeys(tree)` as "a list of every
leaf key path in `tree`, depth-first, in traversal order", a key path
being the "dot-joined sequence of property names from root to a leaf"
(section 3). -/

mutual

/-- Modelled from the spec: the key paths (as segment sequences, root to
leaf) of every leaf of a tree, depth-first in traversal order.  A
non-object value is itself a leaf, reached by the empty path. -/
def leafPaths : JSValue → List (List String)
  | .obj fields => leafPathsFields fields
  | _ => [[]]

/-- Leaf key paths contributed by a field list, in field order. -/
def leafPathsFields : JSFields → List (List String)
  | .fnil => []
  | .fcons k v rest =>
    (leafPaths v).map (fun p => k :: p) ++ leafPathsFields rest

end

/-- Dot-joining of a path's segments. -/
def joinDots : List String → String
  | [] => ""
  | [s] => s
  | s :: rest => s ++ "." ++ joinDots rest

/-- The prefix-extension step of `flatKeys`:
`prefix ? prefix + '.' + key : key`. -/
def joinKey (pfx k : String) : String :=
  if pfx = "" then k else pfx ++ "." ++ k

/-- Dot-joining of a path after an already accumulated prefix. -/
def joinAfter (pfx : String) (p : List String) : String :=
  if pfx = "" then joinDots p else joinDots (pfx :: p)

mutual

/-- Every key of every object anywhere in the tree is non-empty. -/
def keysNonEmpty : JSValue → Bool
  | .obj fields => fieldsKeysNonEmpty fields
  | _ => true

/-- Every key of a field list and of its nested objects is non-empty. -/
def fieldsKeysNonEmpty : JSFields → Bool
  | .fnil => true
  | .fcons k v rest => k != "" && keysNonEmpty v && fieldsKeysNonEmpty rest

end

/-! ## compositePart.ts — state model

The manager's observable state.  Composite instances are identified by a
serial number allocated at instantiation time; the DOM, toolbar, progress
bar and title widgets are abstracted to the bookkeeping the claims
observe (which container is built, which is attached, which composite is
visible), plus a trace of the notifications and composite calls the
manager emits. -/

/-- Externally observable notifications and composite calls, in emission
order: the `onDidCompositeOpen` and `onDidCompositeClose` emitter firings,
`composite.setVisible(..)` and `composite.focus()` calls. -/
inductive CEvent where
  | didOpen : String → Bool → CEvent
  | didClose : String → CEvent
  | visibleChanged : Nat → Bool → CEvent
  | focused : String → CEvent
deriving Repr, DecidableEq

/-- State of a `CompositePart`.  `instantiatedCompositeItems`,
`mapCompositeToCompositeContainer` and `mapActionsBindingToComposite`
model the maps of the same names (containers and action bindings by
membership only); `attached` is the set of composite containers currently
appended to the content area; `visible` is the set of instances whose
last `setVisible` call was `true`; `storedSetting` is the workspace
storage slot for the active-composite setting; `disposedInstances`
records every composite instance that has been disposed. -/
structure CState where
  activeComposite : Option (String × Nat)
  lastActiveCompositeId : String
  instantiatedCompositeItems : List (String × Nat)
  mapCompositeToCompositeContainer : List String
  mapActionsBindingToComposite : List String
  currentCompositeOpenToken : Option Nat
  nextToken : Nat
  nextInstance : Nat
  visible : List Nat
  attached : List String
  storedSetting : Option String
  titleUpdatedFor : Option String
  disposedInstances : List Nat
  events : List CEvent
deriving Repr, DecidableEq

/-- Result of an open sequence: the composite that was opened, the
`undefined` return of a superseded (race-guarded) or already-visible
sequence, or a thrown error. -/
inductive OpenResult where
  | ok : Nat → OpenResult
  | undef : OpenResult
  | err : String → OpenResult
deriving Repr, DecidableEq

/-- `composite.setVisible(true)` on instance `inst`, recorded in the
visible set and the event trace. -/
def setVisibleTrue (inst : Nat) (st : CState) : CState :=
  { st with
    visible := if inst ∈ st.visible then st.visible else st.visible ++ [inst],
    events := st.events ++ [.visibleChanged inst true] }

/-- `composite.setVisible(false)` on instance `inst`. -/
def setVisibleFalse (inst : Nat) (st : CState) : CState :=
  { st with
    visible := st.visible.erase inst,
    events := st.events ++ [.visibleChanged inst false] }

/-- Embedding of `hideActiveComposite()`: returns `undefined` when nothing
is active; otherwise clears `activeComposite`, calls `setVisible(false)`,
takes the composite container off-DOM, stops the progress bar, empties
the toolbar (not modelled beyond the trace) and fires
`onDidCompositeClose`, returning the hidden composite. -/
def hideActiveComposite (st : CState) : Option (String × Nat) × CState :=
  match st.activeComposite with
  | none => (none, st)
  | some (id, inst) =>
    let st1 := { st with activeComposite := none }
    let st2 := setVisibleFalse inst st1
    let st3 := { st2 with attached := st2.attached.erase id }
    let st4 := { st3 with events := st3.events ++ [.didClose id] }
    (some (id, inst), st4)

/-- Embedding of `updateTitle(compositeId)`: a no-op unless the registry
has a descriptor for the id; otherwise updates the title row. -/
def updateTitle (reg : List String) (id : String) (st : CState) : CState :=
  if id ∈ reg then { st with titleUpdatedFor := some id } else st

/-- Embedding of `createComposite(id)`: returns the cached instance when
one exists; otherwise, for a registered id, runs the descriptor's
`instantiate` — which may execute arbitrary re-entrant code, modelled by
`nested` — then allocates the new instance and records it in
`instantiatedCompositeItems`.  An unregistered id throws
(`none` here), mutating nothing. -/
def createComposite (reg : List String) (nested : CState → CState) (id : String)
    (st : CState) : Option Nat × CState :=
  match st.instantiatedCompositeItems.lookup id with
  | some inst => (some inst, st)
  | none =>
    if id ∈ reg then
      let st1 := nested st
      let inst := st1.nextInstance
      let st2 := { st1 with
        nextInstance := st1.nextInstance + 1,
        instantiatedCompositeItems :=
          (id, inst) :: st1.instantiatedCompositeItems.filter (fun p => p.1 != id) }
      (some inst, st2)
    else (none, st)

/-- The active composite exists and its id differs from `id`
(`this.activeComposite && this.activeComposite.getId() !== composite.getId()`). -/
def activeIdDiffers (st : CState) (id : String) : Bool :=
  match st.activeComposite with
  | some (aid, _) => aid != id
  | none => false

/-- The active composite exists and has id `id`. -/
def activeIdIs (st : CState) (id : String) : Bool :=
  match st.activeComposite with
  | some (aid, _) => aid = id
  | none => false

/-- Embedding of `showComposite(composite)`: marks the composite active,
persists (or clears) the last-active setting, remembers the id, builds
the composite container on first show, re-checks that the composite is
still the active one, attaches the container, binds the toolbar and the
cached (or freshly collected) action binding, and calls
`setVisible(true)`.  `composite.create` is modelled as the pure
construction of the container. -/
def showComposite (dflt : String) (id : String) (inst : Nat) (st : CState) : CState :=
  let st1 := { st with activeComposite := some (id, inst) }
  let st2 :=
    if id != dflt then { st1 with storedSetting := some id }
    else { st1 with storedSetting := none }
  let st3 := { st2 with lastActiveCompositeId := id }
  let st4 :=
    if id ∈ st3.mapCompositeToCompositeContainer then st3
    else { st3 with
      mapCompositeToCompositeContainer := st3.mapCompositeToCompositeContainer ++ [id] }
  if activeIdIs st4 id = false then st4
  else
    let st5 :=
      { st4 with attached := if id ∈ st4.attached then st4.attached else st4.attached ++ [id] }
    let st6 :=
      if id ∈ st5.mapActionsBindingToComposite then st5
      else { st5 with
        mapActionsBindingToComposite := st5.mapActionsBindingToComposite ++ [id] }
    setVisibleTrue inst st6

/-- Embedding of the tail of `doOpenComposite` after `createComposite`
returned (lines 131-157): the open-token race guard, the
already-visible-again check, and the show/focus/notify path. -/
def doOpenCompositeCont (dflt : String) (id : String) (focus : Bool) (token : Nat)
    (inst : Nat) (st : CState) : OpenResult × CState :=
  if st.currentCompositeOpenToken != some token || activeIdDiffers st id then
    (.undef, st)
  else if activeIdIs st id then
    let st1 := if focus then { st with events := st.events ++ [.focused id] } else st
    (.ok inst, { st1 with events := st1.events ++ [.didOpen id focus] })
  else
    let st1 := showComposite dflt id inst st
    let st2 := if focus then { st1 with events := st1.events ++ [.focused id] } else st1
    (.ok inst, { st2 with events := st2.events ++ [.didOpen id focus] })

/-- Embedding of `doOpenComposite(id, focus)`: mints a fresh open token
and makes it current, hides the active composite if any, updates the
title, creates (or fetches) the composite — during which `nested`
re-entrant code may run — and then continues with
`doOpenCompositeCont`.  An unregistered id propagates the
`createComposite` error. -/
def doOpenComposite (reg : List String) (dflt : String) (nested : CState → CState)
    (id : String) (focus : Bool) (st : CState) : OpenResult × CState :=
  let token := st.nextToken
  let st1 := { st with nextToken := st.nextToken + 1, currentCompositeOpenToken := some token }
  let st2 := if st1.activeComposite.isSome then (hideActiveComposite st1).2 else st1
  let st3 := updateTitle reg id st2
  match createComposite reg nested id st3 with
  | (none, st4) => (.err ("Unable to find composite with id " ++ id), st4)
  | (some inst, st4) => doOpenCompositeCont dflt id focus token inst st4

/-- Embedding of `openComposite(id, focus)`: when the requested composite
is already active it is (optionally) focused and returned immediately;
otherwise the open sequence runs. -/
def openComposite (reg : List String) (dflt : String) (nested : CState → CState)
    (id : String) (focus : Bool) (st : CState) : OpenResult × CState :=
  match st.activeComposite with
  | some (aid, inst) =>
    if aid = id then
      (.ok inst, if focus then { st with events := st.events ++ [.focused id] } else st)
    else doOpenComposite reg dflt nested id focus st
  | none => doOpenComposite reg dflt nested id focus st

/-- Embedding of `removeComposite(compositeId)`: refuses (returns `false`,
touching nothing) when the id is the active one; otherwise evicts the
container and action-binding caches, and if an instance is cached,
disposes it and evicts it from `instantiatedCompositeItems`, returning
`true`. -/
def removeComposite (id : String) (st : CState) : Bool × CState :=
  if activeIdIs st id then (false, st)
  else
    let st1 := { st with
      mapCompositeToCompositeContainer := st.mapCompositeToCompositeContainer.erase id,
      mapActionsBindingToComposite := st.mapActionsBindingToComposite.erase id }
    match st1.instantiatedCompositeItems.lookup id with
    | some inst =>
      (true, { st1 with
        disposedInstances := st1.disposedInstances ++ [inst],
        instantiatedCompositeItems :=
          st1.instantiatedCompositeItems.filter (fun p => p.1 != id) })
    | none => (true, st1)

/-- The state of a freshly constructed `CompositePart` (no composite
instantiated, nothing active, no open token minted yet);
`lastId` is the value restored from storage for
`lastActiveCompositeId`. -/
def initialState (lastId : String) : CState :=
  { activeComposite := none
    lastActiveCompositeId := lastId
    instantiatedCompositeItems := []
    mapCompositeToCompositeContainer := []
    mapActionsBindingToComposite := []
    currentCompositeOpenToken := none
    nextToken := 0
    nextInstance := 0
    visible := []
    attached := []
    storedSetting := none
    titleUpdatedFor := none
    disposedInstances := []
    events := [] }

/-! ### Programs of manager operations

Reachable states are those produced by running a program of public
operations from the initial state; an `openC` step carries the program
its composite factory runs re-entrantly during instantiation. -/

mutual

/-- A single public operation on the manager. -/
inductive COp where
  | openC : String → Bool → CProg → COp
  | removeC : String → COp
  | hideC : COp

/-- A sequence of operations. -/
inductive CProg where
  | pnil : CProg
  | pcons : COp → CProg → CProg

end

mutual

/-- Run one operation. -/
def runOp (reg : List String) (dflt : String) : COp → CState → CState
  | .openC id focus nested, st =>
    (openComposite reg dflt (fun s => runProg reg dflt nested s) id focus st).2
  | .removeC id, st => (removeComposite id st).2
  | .hideC, st => (hideActiveComposite st).2

/-- Run a program of operations in order. -/
def runProg (reg : List String) (dflt : String) : CProg → CState → CState
  | .pnil, st => st
  | .pcons op rest, st => runProg reg dflt rest (runOp reg dflt op st)

end

/-- The activation-exclusivity invariant: the set of composites whose last
`setVisible` call was `true`, and the set of containers attached to the
content area, consist of exactly the active composite — in particular at
most one composite instance is ever visible/attached. -/
def CInv (st : CState) : Prop :=
  match st.activeComposite with
  | some (id, inst) => st.visible = [inst] ∧ st.attached = [id]
  | none => st.visible = [] ∧ st.attached = []

/-! ## Helper lemmas — telemetry -/

theorem splitOnChar_ne_nil (c : Char) (l : List Char) : splitOnChar c l ≠ [] := by
  induction l with
  | nil => simp [splitOnChar]
  | cons x xs ih =>
    cases h : splitOnChar c xs with
    | nil => exact absurd h ih
    | cons g gs =>
      simp only [splitOnChar, h]
      split <;> simp

theorem splitDot_ne_nil (s : String) : splitDot s ≠ [] := by
  simp only [splitDot, ne_eq, List.map_eq_nil_iff]
  exact splitOnChar_ne_nil _ _

theorem resolve_undefined (segs : List String) :
    segs.foldl resolveStep .undefined = .undefined := by
  induction segs with
  | nil => rfl
  | cons s rest ih =>
    simpa [resolveStep, isTruthy] using ih

theorem resolve_falsy {v : JSValue} (hv : isTruthy v = false) :
    ∀ (segs : List String), segs ≠ [] → segs.foldl resolveStep v = .undefined := by
  intro segs hne
  cases segs with
  | nil => exact absurd rfl hne
  | cons s rest =>
    have h1 : resolveStep v s = .undefined := by simp [resolveStep, hv]
    simp [List.foldl_cons, h1, resolve_undefined]

theorem flattenValues_foldl (value : JSValue) :
    ∀ (keys : List String) (acc : List (List (String × JSValue))),
      keys.foldl
        (fun array key =>
          match (splitDot key).foldl resolveStep value with
          | .undefined => array
          | v => array ++ [[(key, v)]]) acc
      = acc ++ flattenValuesSpec value keys := by
  intro keys
  induction keys with
  | nil => intro acc; simp [flattenValuesSpec]
  | cons key rest ih =>
    intro acc
    simp only [List.foldl_cons, flattenValuesSpec, List.filterMap_cons]
    cases h : (splitDot key).foldl resolveStep value <;>
      simp [h, ih, flattenValuesSpec, List.append_assoc]

/-! ## Helper lemmas — dot-joining of leaf paths -/

theorem joinAfter_nil (pfx : String) : joinAfter pfx [] = pfx := by
  unfold joinAfter
  split
  · next h => rw [h]; rfl
  · rfl

theorem append_dot_ne_empty (a k : String) : a ++ "." ++ k ≠ "" := by
  intro h
  have hl := congrArg String.length h
  have hdot : (".").length = 1 := rfl
  have hemp : ("" : String).length = 0 := rfl
  simp only [String.length_append, hdot, hemp] at hl
  omega

theorem joinAfter_cons {k : String} (hk : k ≠ "") (pfx : String) (p : List String) :
    joinAfter pfx (k :: p) = joinAfter (joinKey pfx k) p := by
  unfold joinAfter joinKey
  by_cases hp : pfx = ""
  · simp [hp, hk]
  · simp only [hp, if_false, append_dot_ne_empty pfx k]
    cases p with
    | nil => rfl
    | cons q qs => simp [joinDots, String.append_assoc]

mutual

theorem flatKeys_eq_leafPaths : ∀ (v : JSValue), keysNonEmpty v = true →
    ∀ (pfx : String), flatKeys pfx v = (leafPaths v).map (joinAfter pfx)
  | .obj fields, h, pfx => by
    have h' : fieldsKeysNonEmpty fields = true := h
    simpa [flatKeys, leafPaths] using flatKeysFields_eq_leafPaths fields h' pfx
  | .undefined, _, pfx => by simp [flatKeys, leafPaths, joinAfter_nil]
  | .null, _, pfx => by simp [flatKeys, leafPaths, joinAfter_nil]
  | .bool _, _, pfx => by simp [flatKeys, leafPaths, joinAfter_nil]
  | .num _, _, pfx => by simp [flatKeys, leafPaths, joinAfter_nil]
  | .str _, _, pfx => by simp [flatKeys, leafPaths, joinAfter_nil]
  | .arr _, _, pfx => by simp [flatKeys, leafPaths, joinAfter_nil]

theorem flatKeysFields_eq_leafPaths : ∀ (fs : JSFields), fieldsKeysNonEmpty fs = true →
    ∀ (pfx : String), flatKeysFields pfx fs = (leafPathsFields fs).map (joinAfter pfx)
  | .fnil, _, pfx => by simp [flatKeysFields, leafPathsFields]
  | .fcons k v rest, h, pfx => by
    have h3 := by simpa [fieldsKeysNonEmpty, Bool.and_eq_true, bne_iff_ne] using h
    obtain ⟨⟨hk, hv⟩, hrest⟩ := h3
    rw [flatKeysFields, leafPathsFields,
      flatKeys_eq_leafPaths v hv, flatKeysFields_eq_leafPaths rest hrest]
    rw [List.map_append, List.map_map]
    congr 1
    exact List.map_congr_left fun p _ => (joinAfter_cons hk pfx p).symm

end

/-! ## Claims about `flattenKeys` / `flattenValues` -/

/-- C6 counterexample: the claim "flattenKeys(tree) returns the dot-joined
path of every leaf" fails on a tree with an empty key.  For
`{"": {b: 1}}` the dot-joined leaf path is `".b"`, but `flatKeys` tests
the accumulated prefix for truthiness (`prefix ? prefix + '.' + key :
key`), so the empty first segment is collapsed and the code yields
`["b"]`. -/
theorem c6_flatten_keys_counterexample :
    flattenKeys (.obj (.fcons "" (.obj (.fcons "b" (.num 1) .fnil)) .fnil)) = ["b"]
    ∧ (leafPaths (.obj (.fcons "" (.obj (.fcons "b" (.num 1) .fnil)) .fnil))).map joinDots
        = [".b"]
    ∧ flattenKeys (.obj (.fcons "" (.obj (.fcons "b" (.num 1) .fnil)) .fnil))
        ≠ (leafPaths (.obj (.fcons "" (.obj (.fcons "b" (.num 1) .fnil)) .fnil))).map joinDots :=
  ⟨rfl, rfl, by decide⟩

/-- C6 (amended): for every nested object tree all of whose keys are
non-empty, `flattenKeys` returns the dot-joined path of every leaf,
depth-first in traversal order; an absent (undefined/null) input returns
the empty list; in particular
`flattenKeys({a:{b:1,c:2}, d:3}) = ["a.b","a.c","d"]` and
`flattenKeys(undefined) = []`.  (A tree with an empty key collapses the
empty segment instead of dot-joining it.) -/
theorem c6_flatten_keys_leaf_paths :
    (∀ (fields : JSFields), fieldsKeysNonEmpty fields = true →
        flattenKeys (.obj fields) = (leafPaths (.obj fields)).map joinDots)
    ∧ flattenKeys .undefined = []
    ∧ flattenKeys .null = []
    ∧ flattenKeys
        (.obj (.fcons "a" (.obj (.fcons "b" (.num 1) (.fcons "c" (.num 2) .fnil)))
          (.fcons "d" (.num 3) .fnil)))
        = ["a.b", "a.c", "d"] := by
  refine ⟨?_, rfl, rfl, rfl⟩
  intro fields h
  have hmain := flatKeys_eq_leafPaths (.obj fields) h ""
  have htruthy : isTruthy (.obj fields) = true := rfl
  rw [flattenKeys, htruthy, if_pos rfl, hmain]
  exact List.map_congr_left fun p _ => by simp [joinAfter]

/-- C6 witness: the amended general statement applied to the concrete
tree `{x: 5}`. -/
theorem c6_flatten_keys_witness :
    fieldsKeysNonEmpty (.fcons "x" (.num 5) .fnil) = true
    ∧ flattenKeys (.obj (.fcons "x" (.num 5) .fnil))
        = (leafPaths (.obj (.fcons "x" (.num 5) .fnil))).map joinDots :=
  ⟨rfl, c6_flatten_keys_leaf_paths.1 (.fcons "x" (.num 5) .fnil) rfl⟩

/-- C7: `flattenValues(tree, whitelist)` resolves each whitelisted
dot-path segment by segment against the tree; a path whose resolution
produces `undefined` (missing key or non-container intermediate) is
silently skipped, every resolved path contributes one single-entry
mapping `{path: value}`, and the output order follows whitelist order —
i.e. the source function equals the spec-side `flattenValuesSpec`; in
particular `flattenValues({a:{b:1}}, ["a.b","a.z"]) = [{"a.b":1}]`. -/
theorem c7_flatten_values_refinement :
    (∀ (value : JSValue) (keys : List String),
        flattenValues value keys = flattenValuesSpec value keys)
    ∧ flattenValues (.obj (.fcons "a" (.obj (.fcons "b" (.num 1) .fnil)) .fnil))
        ["a.b", "a.z"] = [[("a.b", JSValue.num 1)]] := by
  constructor
  · intro value keys
    rw [flattenValues]
    split
    · next hv =>
      symm
      rw [flattenValuesSpec, List.filterMap_eq_nil_iff]
      intro key _
      rw [resolve_falsy hv (splitDot key) (splitDot_ne_nil key)]
    · next hv =>
      simpa using flattenValues_foldl value keys []
  · rfl

theorem flatKeysFields_fappend (pfx : String) :
    ∀ (f g : JSFields),
      flatKeysFields pfx (f.fappend g) = flatKeysFields pfx f ++ flatKeysFields pfx g
  | .fnil, g => by simp [JSFields.fappend, flatKeysFields]
  | .fcons k v rest, g => by
    simp [JSFields.fappend, flatKeysFields, flatKeysFields_fappend pfx rest g,
      List.append_assoc]

/-- C10: `flatKeys` treats an array-valued property as a leaf: an object
with an array at key `k` contributes exactly the accumulated path of `k`
itself, as a single entry, and the output never depends on (never
descends into) the array's indices or elements. -/
theorem c10_array_is_leaf (pfx k : String) (f1 f2 : JSFields) (xs : JSList) :
    flatKeys pfx (.obj (f1.fappend (.fcons k (.arr xs) f2)))
      = flatKeysFields pfx f1 ++ [joinKey pfx k] ++ flatKeysFields pfx f2 := by
  rw [flatKeys, flatKeysFields_fappend]
  simp [flatKeysFields, flatKeys, joinKey]

/-! ## Claims about `LogAppender` / `combinedAppender` totality -/

/-- C2 counterexample: the claim that every telemetry-utility function
"raises no exception" for absent input fails for `LogAppender.log`: with
`data` equal to `undefined`, `Object.keys(data)` throws a `TypeError`
rather than degrading to an empty result. -/
theorem c2_log_appender_counterexample :
    logAppenderLog "updateConfiguration" .undefined
      = .error "TypeError: Cannot convert undefined or null to object" := rfl

/-- C2 (amended): `flattenKeys`, `flattenValues` and `combinedAppender`
are total and degrade absent (undefined/null) input to an empty result;
`LogAppender.log` is total for any data other than `undefined`/`null`,
but throws a `TypeError` on those two inputs. -/
theorem c2_totality (e : String) (data : JSValue)
    (h1 : data ≠ .undefined) (h2 : data ≠ .null) :
    (flattenKeys .undefined = [] ∧ flattenKeys .null = [])
    ∧ (∀ (keys : List String),
        flattenValues .undefined keys = [] ∧ flattenValues .null keys = [])
    ∧ (∀ (e' : String) (d : JSValue), combinedAppenderLog [] e' d = [])
    ∧ ∃ out, logAppenderLog e data = .ok out := by
  refine ⟨⟨rfl, rfl⟩, fun keys => ⟨rfl, rfl⟩, fun e' d => rfl, ?_⟩
  cases data with
  | undefined => exact absurd rfl h1
  | null => exact absurd rfl h2
  | bool b => exact ⟨_, rfl⟩
  | num n => exact ⟨_, rfl⟩
  | str s => exact ⟨_, rfl⟩
  | arr xs => exact ⟨_, rfl⟩
  | obj fields => exact ⟨_, rfl⟩

/-- C2 witness: the amended totality statement at a concrete event. -/
theorem c2_totality_witness :
    (JSValue.obj (.fcons "foo" (.num 1) .fnil)) ≠ .undefined
    ∧ ∃ out,
        logAppenderLog "updateKeybindings" (.obj (.fcons "foo" (.num 1) .fnil)) = .ok out :=
  ⟨(fun h => nomatch h),
    (c2_totality "updateKeybindings" (.obj (.fcons "foo" (.num 1) .fnil))
      (fun h => nomatch h) (fun h => nomatch h)).2.2.2⟩

/-! ## Claim about `LogAppender.log` redaction (C8) -/

theorem logAppender_foldl (data : JSValue) :
    ∀ (keys : List String) (acc : List (String × JSValue)),
      keys.foldl (fun acc key =>
          if commonPropsTest key then acc else acc ++ [(key, jsMember data key)]) acc
        = acc ++ keys.filterMap (fun key =>
            if commonPropsTest key then none else some (key, jsMember data key)) := by
  intro keys
  induction keys with
  | nil => intro acc; simp
  | cons key rest ih =>
    intro acc
    cases h : commonPropsTest key <;> simp [h, ih, List.append_assoc]

theorem fields_filterMap_strip :
    ∀ (fields : JSFields), fields.keys.Nodup →
      (fields.keys.filterMap fun key =>
          if commonPropsTest key then none
          else some (key, jsMember (.obj fields) key))
        = fields.toList.filter (fun kv => !commonPropsTest kv.1)
  | .fnil, _ => by simp [JSFields.keys, JSFields.toList]
  | .fcons k v rest, h => by
    have hnd : ¬ k ∈ rest.keys ∧ rest.keys.Nodup := by
      simpa [JSFields.keys, List.nodup_cons] using h
    obtain ⟨hk, hrest⟩ := hnd
    have hmem : jsMember (.obj (.fcons k v rest)) k = v := by
      simp [jsMember, JSFields.lookupKey]
    have hcongr : (rest.keys.filterMap fun key =>
          if commonPropsTest key then none
          else some (key, jsMember (.obj (.fcons k v rest)) key))
        = rest.keys.filterMap fun key =>
          if commonPropsTest key then none
          else some (key, jsMember (.obj rest) key) := by
      apply List.filterMap_congr
      intro key hkey
      have hne : ¬ (k = key) := fun e => hk (e ▸ hkey)
      simp [jsMember, JSFields.lookupKey, hne]
    rw [JSFields.keys, List.filterMap_cons, hcongr, fields_filterMap_strip rest hrest]
    cases htest : commonPropsTest k <;> simp [hmem, htest, JSFields.toList]

/-- C8: `LogAppender.log` forwards to the underlying log exactly the
key/value pairs whose keys do not match the fixed common/session-metadata
patterns (`sessionID`, `version`, `timestamp`, `commitHash`, and keys
prefixed `common.`), in field order; in particular, given
`{sessionID:"x", foo:1}` it forwards only `{foo:1}`. -/
theorem c8_log_appender_strips_common (fields : JSFields) (e : String)
    (h : fields.keys.Nodup) :
    logAppenderLog e (.obj fields)
      = .ok ("telemetry/" ++ e, fields.toList.filter (fun kv => !commonPropsTest kv.1))
    ∧ logAppenderLog "ev" (.obj (.fcons "sessionID" (.str "x") (.fcons "foo" (.num 1) .fnil)))
        = .ok ("telemetry/ev", [("foo", JSValue.num 1)]) := by
  constructor
  · rw [logAppenderLog]
    simp only [objectKeys]
    rw [logAppender_foldl, fields_filterMap_strip fields h]
    rfl
  · rfl

/-- C8 witness: redaction of a concrete event with a `common.`-prefixed
key. -/
theorem c8_log_appender_witness :
    (JSFields.fcons "common.os" (.str "mac") (.fcons "x" (.num 2) .fnil)).keys.Nodup
    ∧ logAppenderLog "e2" (.obj (.fcons "common.os" (.str "mac") (.fcons "x" (.num 2) .fnil)))
        = .ok ("telemetry/e2", [("x", JSValue.num 2)]) :=
  ⟨by decide,
    (c8_log_appender_strips_common
      (.fcons "common.os" (.str "mac") (.fcons "x" (.num 2) .fnil)) "e2" (by decide)).1⟩

/-! ## Claim about `combinedAppender` (C9) -/

theorem combinedLog_foldl (e : String) (d : JSValue) :
    ∀ (apps : List MAppender) (acc : List (Nat × String × JSValue)),
      apps.foldl (fun calls a => calls ++ [(a.ident, e, d)]) acc
        = acc ++ apps.map (fun a => (a.ident, e, d)) := by
  intro apps
  induction apps with
  | nil => intro acc; simp
  | cons a rest ih => intro acc; simp [ih, List.append_assoc]

theorem foldl_max_le_self : ∀ (l : List Nat) (acc : Nat), acc ≤ l.foldl max acc
  | [], acc => le_refl acc
  | t :: ts, acc => le_trans (le_max_left acc t) (foldl_max_le_self ts (max acc t))

theorem mem_le_foldl_max : ∀ (l : List Nat) (a : Nat), a ∈ l → ∀ acc, a ≤ l.foldl max acc
  | [], a, h, _ => absurd h (List.not_mem_nil a)
  | t :: ts, a, h, acc => by
    rcases List.mem_cons.mp h with rfl | h'
    · exact le_trans (le_max_right acc a) (foldl_max_le_self ts (max acc a))
    · exact mem_le_foldl_max ts a h' (max acc t)

/-- C9: `combinedAppender(...appenders).log(e, d)` invokes `a.log(e, d)`
on every wrapped appender in list order (the invocation trace is exactly
the appender list, each paired with the same event and data), and its
`dispose()` (a `Promise.all` over the wrapped dispose results) resolves
no earlier than the dispose result of every wrapped appender. -/
theorem c9_combined_appender (appenders : List MAppender) (a : MAppender)
    (ha : a ∈ appenders) :
    (∀ (apps : List MAppender) (e : String) (d : JSValue),
        combinedAppenderLog apps e d = apps.map (fun x => (x.ident, e, d)))
    ∧ a.disposeTime ≤ combinedAppenderDisposeTime appenders := by
  constructor
  · intro apps e d
    simpa [combinedAppenderLog] using combinedLog_foldl e d apps []
  · have hmem : a.disposeTime ∈ appenders.map (fun x => x.disposeTime) :=
      List.mem_map_of_mem _ ha
    simpa [combinedAppenderDisposeTime, promiseAllResolveTime] using
      mem_le_foldl_max _ a.disposeTime hmem 0

/-- C9 witness: the combined appender over two concrete appenders. -/
theorem c9_combined_appender_witness :
    (⟨1, 7⟩ : MAppender) ∈ [(⟨0, 3⟩ : MAppender), ⟨1, 7⟩]
    ∧ (⟨1, 7⟩ : MAppender).disposeTime
        ≤ combinedAppenderDisposeTime [⟨0, 3⟩, ⟨1, 7⟩] :=
  ⟨by decide, (c9_combined_appender [⟨0, 3⟩, ⟨1, 7⟩] ⟨1, 7⟩ (by decide)).2⟩

/-! ## Claims about the composite activation manager -/

/-- A concrete manager state with composite `"a"` (instance 0) active,
used by the witnesses. -/
def sampleActiveState : CState :=
  { initialState "dflt" with
    activeComposite := some ("a", 0),
    instantiatedCompositeItems := [("a", 0)],
    mapCompositeToCompositeContainer := ["a"],
    mapActionsBindingToComposite := ["a"],
    currentCompositeOpenToken := some 0,
    nextToken := 1,
    nextInstance := 1,
    visible := [0],
    attached := ["a"] }

/-- C3: when the requested composite is already active, `openComposite`
returns the active composite immediately, focuses it exactly when focus
is requested, changes no other state, and fires no `onDidCompositeOpen`
notification. -/
theorem c3_open_active_idempotent (reg : List String) (dflt : String)
    (nested : CState → CState) (id : String) (inst : Nat) (st : CState)
    (h : st.activeComposite = some (id, inst)) :
    openComposite reg dflt nested id true st
        = (.ok inst, { st with events := st.events ++ [.focused id] })
    ∧ openComposite reg dflt nested id false st = (.ok inst, st) := by
  constructor <;> (unfold openComposite; rw [h]; simp)

/-- C3 witness: reopening the already-active composite `"a"` without
focus returns it and leaves the state untouched. -/
theorem c3_open_active_witness :
    sampleActiveState.activeComposite = some ("a", 0)
    ∧ openComposite ["a", "b"] "dflt" (fun s => s) "a" false sampleActiveState
        = (.ok 0, sampleActiveState) :=
  ⟨rfl,
    (c3_open_active_idempotent ["a", "b"] "dflt" (fun s => s) "a" 0 sampleActiveState rfl).2⟩

theorem lookup_filter_ne_none (id : String) :
    ∀ (l : List (String × Nat)), (l.filter (fun p => p.1 != id)).lookup id = none
  | [] => rfl
  | (k, v) :: rest => by
    by_cases hk : k = id
    · simp [List.filter_cons, hk, lookup_filter_ne_none id rest]
    · have hbeq : (id == k) = false := beq_eq_false_iff_ne.mpr (fun e => hk e.symm)
      simp [List.filter_cons, bne_iff_ne, hk, List.lookup_cons, hbeq,
        lookup_filter_ne_none id rest]

/-- C4: `removeComposite` on the currently active identifier returns
`false` and leaves all state unchanged; on any other cached identifier it
returns `true`, disposes the cached instance and evicts it from the
cache, so that a subsequent `createComposite` for that identifier
instantiates a fresh instance (the next instance serial, distinct from
the removed one). -/
theorem c4_remove_composite (reg : List String) (st : CState) (id : String) (inst : Nat)
    (hact : activeIdIs st id = false)
    (hcache : st.instantiatedCompositeItems.lookup id = some inst)
    (hfresh : inst < st.nextInstance)
    (hreg : id ∈ reg) :
    (∀ (st' : CState) (id' : String), activeIdIs st' id' = true →
        removeComposite id' st' = (false, st'))
    ∧ (removeComposite id st).1 = true
    ∧ inst ∈ (removeComposite id st).2.disposedInstances
    ∧ (removeComposite id st).2.instantiatedCompositeItems.lookup id = none
    ∧ (createComposite reg (fun s => s) id (removeComposite id st).2).1
        = some st.nextInstance
    ∧ st.nextInstance ≠ inst := by
  refine ⟨?_, ?_, ?_, ?_, ?_, by omega⟩
  · intro st' id' h
    unfold removeComposite
    rw [h]
    simp
  · unfold removeComposite
    rw [hact]
    simp [hcache]
  · unfold removeComposite
    rw [hact]
    simp [hcache]
  · unfold removeComposite
    rw [hact]
    simp only [Bool.false_eq_true, if_false, hcache]
    exact lookup_filter_ne_none id _
  · unfold removeComposite
    rw [hact]
    simp only [Bool.false_eq_true, if_false, hcache]
    unfold createComposite
    simp [lookup_filter_ne_none id, hreg]

/-- C4 witness: removing the cached, non-active composite `"b"` from a
state where `"a"` is active. -/
theorem c4_remove_composite_witness :
    activeIdIs
        { sampleActiveState with
          instantiatedCompositeItems := [("a", 0), ("b", 1)], nextInstance := 2 } "b" = false
    ∧ (removeComposite "b"
        { sampleActiveState with
          instantiatedCompositeItems := [("a", 0), ("b", 1)], nextInstance := 2 }).1 = true
    ∧ (createComposite ["a", "b"] (fun s => s) "b"
        (removeComposite "b"
          { sampleActiveState with
            instantiatedCompositeItems := [("a", 0), ("b", 1)], nextInstance := 2 }).2).1
        = some 2 :=
  have h := c4_remove_composite ["a", "b"]
    { sampleActiveState with
      instantiatedCompositeItems := [("a", 0), ("b", 1)], nextInstance := 2 }
    "b" 1 rfl rfl (by decide) (by decide)
  ⟨rfl, h.2.1, h.2.2.2.2.1⟩

/-- Re-entrant code run by composite `"a"`'s factory in the C1 scenario:
a complete `open("b")` sequence that finishes while `"a"` is being
instantiated. -/
def c1NestedOpenB (s : CState) : CState :=
  (openComposite ["a", "b"] "dflt" (fun x => x) "b" false s).2

/-- C1: the open-token race guard.  If, after `createComposite`, the
continuation of `doOpenComposite` finds that its minted token is no
longer the current token, or that a different composite has become
active, it returns `undefined` and leaves the state exactly as it found
it (no further visible mutation).  In particular, for `open("a")` whose
instantiation re-entrantly completes a full `open("b")`, only `"b"`
becomes active, `"a"`'s call returns `undefined`, and the only visible
outcome besides `"b"`'s activation is the instance cache entry made by
`createComposite` itself before the continuation ran. -/
theorem c1_open_token_race_guard (dflt id : String) (focus : Bool) (token inst : Nat)
    (st : CState)
    (h : st.currentCompositeOpenToken ≠ some token ∨ activeIdDiffers st id = true) :
    doOpenCompositeCont dflt id focus token inst st = (.undef, st)
    ∧ (openComposite ["a", "b"] "dflt" c1NestedOpenB "a" false (initialState "dflt")).1
        = .undef
    ∧ (openComposite ["a", "b"] "dflt" c1NestedOpenB "a" false (initialState "dflt")).2.activeComposite
        = some ("b", 0)
    ∧ (openComposite ["a", "b"] "dflt" c1NestedOpenB "a" false (initialState "dflt")).2.visible
        = [0]
    ∧ (openComposite ["a", "b"] "dflt" c1NestedOpenB "a" false (initialState "dflt")).2.events
        = [.visibleChanged 0 true, .didOpen "b" false]
    ∧ (openComposite ["a", "b"] "dflt" c1NestedOpenB "a" false
        (initialState "dflt")).2.instantiatedCompositeItems = [("a", 1), ("b", 0)] := by
  refine ⟨?_, rfl, rfl, rfl, rfl, rfl⟩
  have hb : (st.currentCompositeOpenToken != some token || activeIdDiffers st id) = true := by
    rcases h with h | h
    · simp [bne_iff_ne, h]
    · simp [h]
  unfold doOpenCompositeCont
  rw [hb]
  simp

/-- C1 witness: a continuation holding a superseded token (5, while the
current token is 0) returns `undefined` and changes nothing. -/
theorem c1_race_guard_witness :
    sampleActiveState.currentCompositeOpenToken ≠ some 5
    ∧ doOpenCompositeCont "dflt" "a" false 5 0 sampleActiveState
        = (.undef, sampleActiveState) :=
  ⟨by decide,
    (c1_open_token_race_guard "dflt" "a" false 5 0 sampleActiveState
      (Or.inl (by decide))).1⟩

/-! ### Activation-exclusivity invariant lemmas (C5) -/

theorem cinv_none {st : CState} (h : st.activeComposite = none) :
    CInv st ↔ (st.visible = [] ∧ st.attached = []) := by
  unfold CInv
  rw [h]

theorem cinv_some {st : CState} {id : String} {inst : Nat}
    (h : st.activeComposite = some (id, inst)) :
    CInv st ↔ (st.visible = [inst] ∧ st.attached = [id]) := by
  unfold CInv
  rw [h]

theorem cinv_of_eq {st st' : CState}
    (ha : st'.activeComposite = st.activeComposite)
    (hv : st'.visible = st.visible)
    (hat : st'.attached = st.attached)
    (h : CInv st) : CInv st' := by
  unfold CInv at h ⊢
  rw [ha, hv, hat]
  exact h

theorem hideActiveComposite_inv {st : CState} (h : CInv st) :
    (hideActiveComposite st).2.activeComposite = none
    ∧ CInv (hideActiveComposite st).2 := by
  unfold hideActiveComposite
  cases ha : st.activeComposite with
  | none =>
    exact ⟨ha, h⟩
  | some p =>
    obtain ⟨id, inst⟩ := p
    obtain ⟨hv, hat⟩ := (cinv_some ha).mp h
    refine ⟨rfl, ?_⟩
    rw [cinv_none rfl]
    constructor
    · simp [setVisibleFalse, hv]
    · simp [setVisibleFalse, hat]

theorem updateTitle_inv {reg : List String} {id : String} {st : CState} (h : CInv st) :
    CInv (updateTitle reg id st) := by
  unfold updateTitle
  split
  · exact cinv_of_eq rfl rfl rfl h
  · exact h

theorem createComposite_inv {reg : List String} {nested : CState → CState} {id : String}
    {st : CState} (h : CInv st) (hn : ∀ s, CInv s → CInv (nested s)) :
    CInv (createComposite reg nested id st).2 := by
  unfold createComposite
  cases hc : st.instantiatedCompositeItems.lookup id with
  | some inst => exact h
  | none =>
    by_cases hr : id ∈ reg
    · simp only [hr, if_true]
      exact cinv_of_eq rfl rfl rfl (hn st h)
    · simp only [hr, if_false]
      exact h

theorem active_none_of_checks {st : CState} {id : String}
    (h1 : activeIdDiffers st id = false) (h2 : activeIdIs st id = false) :
    st.activeComposite = none := by
  cases ha : st.activeComposite with
  | none => rfl
  | some p =>
    obtain ⟨aid, i⟩ := p
    unfold activeIdDiffers at h1
    unfold activeIdIs at h2
    rw [ha] at h1 h2
    by_cases he : aid = id
    · simp [he] at h2
    · simp [bne_iff_ne, he] at h1

theorem showComposite_inv {dflt id : String} {inst : Nat} {st : CState}
    (hv : st.visible = []) (hat : st.attached = []) :
    CInv (showComposite dflt id inst st)
    ∧ (showComposite dflt id inst st).activeComposite = some (id, inst) := by
  unfold showComposite
  by_cases h1 : (id != dflt) = true <;>
    by_cases h2 : id ∈ st.mapCompositeToCompositeContainer <;>
      by_cases h3 : id ∈ st.mapActionsBindingToComposite <;>
        simp only [h1, h2, h3, if_true, if_false, Bool.false_eq_true, activeIdIs,
          setVisibleTrue, hv, hat, List.not_mem_nil, decide_True, Bool.true_eq_false] <;>
        simp_all [CInv, setVisibleTrue, hv, hat]

theorem doOpenCompositeCont_inv {dflt id : String} {focus : Bool} {token inst : Nat}
    {st : CState} (h : CInv st) :
    CInv (doOpenCompositeCont dflt id focus token inst st).2 := by
  unfold doOpenCompositeCont
  by_cases hstale : (st.currentCompositeOpenToken != some token || activeIdDiffers st id) = true
  · simp only [hstale, if_true]
    exact h
  · rw [Bool.not_eq_true, Bool.or_eq_false_iff] at hstale
    obtain ⟨htok, hdiff⟩ := hstale
    simp only [htok, hdiff, Bool.or_self, Bool.false_eq_true, if_false]
    by_cases hsame : activeIdIs st id = true
    · simp only [hsame, if_true]
      cases focus <;> exact cinv_of_eq rfl rfl rfl h
    · rw [Bool.not_eq_true] at hsame
      simp only [hsame, Bool.false_eq_true, if_false]
      have hnone := active_none_of_checks hdiff hsame
      obtain ⟨hv, hat⟩ := (cinv_none hnone).mp h
      have hs := @showComposite_inv dflt id inst st hv hat
      cases focus <;> exact cinv_of_eq rfl rfl rfl hs.1

theorem doOpenComposite_inv {reg : List String} {dflt : String} {nested : CState → CState}
    {id : String} {focus : Bool} {st : CState}
    (h : CInv st) (hn : ∀ s, CInv s → CInv (nested s)) :
    CInv (doOpenComposite reg dflt nested id focus st).2 := by
  have main : ∀ (st3 : CState), CInv st3 →
      CInv (match createComposite reg nested id st3 with
        | (none, st4) => ((.err ("Unable to find composite with id " ++ id) : OpenResult), st4)
        | (some inst, st4) => doOpenCompositeCont dflt id focus st.nextToken inst st4).2 := by
    intro st3 h3
    have h4 := @createComposite_inv reg nested id st3 h3 hn
    rcases hcc : createComposite reg nested id st3 with ⟨copt, st4⟩
    rw [hcc] at h4
    cases copt with
    | none => exact h4
    | some inst =>
      exact @doOpenCompositeCont_inv dflt id focus st.nextToken inst st4 h4
  unfold doOpenComposite
  refine main _ ?_
  refine updateTitle_inv ?_
  have h1 : CInv { st with
      nextToken := st.nextToken + 1,
      currentCompositeOpenToken := some st.nextToken } :=
    cinv_of_eq rfl rfl rfl h
  split
  · exact (hideActiveComposite_inv h1).2
  · exact h1

theorem openComposite_inv {reg : List String} {dflt : String} {nested : CState → CState}
    {id : String} {focus : Bool} {st : CState}
    (h : CInv st) (hn : ∀ s, CInv s → CInv (nested s)) :
    CInv (openComposite reg dflt nested id focus st).2 := by
  unfold openComposite
  cases ha : st.activeComposite with
  | none => exact doOpenComposite_inv h hn
  | some p =>
    obtain ⟨aid, inst⟩ := p
    obtain ⟨hv, hat⟩ := (cinv_some ha).mp h
    by_cases he : aid = id
    · simp only [he, if_true]
      cases focus with
      | false => exact h
      | true => exact (cinv_some rfl).mpr ⟨hv, he ▸ hat⟩
    · simp only [he, if_false]
      exact doOpenComposite_inv h hn

theorem removeComposite_inv {id : String} {st : CState} (h : CInv st) :
    CInv (removeComposite id st).2 := by
  have main : ∀ (st1 : CState), CInv st1 →
      CInv ((match st1.instantiatedCompositeItems.lookup id with
        | some inst =>
          (true, { st1 with
            disposedInstances := st1.disposedInstances ++ [inst],
            instantiatedCompositeItems :=
              st1.instantiatedCompositeItems.filter (fun p => p.1 != id) })
        | none => (true, st1) : Bool × CState)).2 := by
    intro st1 h1
    cases st1.instantiatedCompositeItems.lookup id with
    | none => exact h1
    | some inst => exact cinv_of_eq rfl rfl rfl h1
  unfold removeComposite
  split
  · exact h
  · exact main _ (cinv_of_eq rfl rfl rfl h)

mutual

theorem runOp_inv (reg : List String) (dflt : String) :
    ∀ (op : COp) (st : CState), CInv st → CInv (runOp reg dflt op st)
  | .openC _ _ nested, _, h =>
    openComposite_inv h (fun s hs => runProg_inv reg dflt nested s hs)
  | .removeC _, _, h => removeComposite_inv h
  | .hideC, _, h => (hideActiveComposite_inv h).2

theorem runProg_inv (reg : List String) (dflt : String) :
    ∀ (prog : CProg) (st : CState), CInv st → CInv (runProg reg dflt prog st)
  | .pnil, _, h => h
  | .pcons op rest, st, h =>
    runProg_inv reg dflt rest (runOp reg dflt op st) (runOp_inv reg dflt op st h)

end

theorem open_deactivates_then_activates (reg : List String) (dflt : String) (id : String)
    (focus : Bool) (st : CState) (a : String) (ia : Nat)
    (h1 : st.activeComposite = some (a, ia)) (h2 : a ≠ id) (h3 : id ∈ reg)
    (h4 : st.instantiatedCompositeItems.lookup id = none) :
    (openComposite reg dflt (fun s => s) id focus st).2.events
      = st.events ++ [.visibleChanged ia false, .didClose a, .visibleChanged st.nextInstance true]
        ++ (if focus then [.focused id] else []) ++ [.didOpen id focus]
    ∧ (openComposite reg dflt (fun s => s) id focus st).2.activeComposite
        = some (id, st.nextInstance) := by
  cases focus <;>
    by_cases hd : (id != dflt) = true <;>
    by_cases hcont : id ∈ st.mapCompositeToCompositeContainer <;>
    by_cases hbind : id ∈ st.mapActionsBindingToComposite <;>
      simp [openComposite, doOpenComposite, hideActiveComposite, updateTitle, createComposite,
        doOpenCompositeCont, showComposite, setVisibleTrue, setVisibleFalse,
        activeIdDiffers, activeIdIs, h1, h2, h3, h4, hd, hcont, hbind, Ne.symm h2]

/-- C5: activation exclusivity.  First conjunct: in every state reachable
by running a program of public operations (each `open` step carrying the
re-entrant program its composite factory runs), the set of visible
composite instances and of attached containers is exactly the active
composite — in particular at most one composite instance is active and
visible at any time.  Second conjunct: opening a new composite over an
active one emits, in order, `setVisible(false)` on the previous instance
and `onDidCompositeClose` (the `hideActiveComposite` deactivation)
strictly before the new composite is marked active, shown
(`setVisible(true)`) and announced via `onDidCompositeOpen`. -/
theorem c5_activation_exclusive (reg : List String) (dflt : String) (id : String)
    (focus : Bool) (st : CState) (a : String) (ia : Nat)
    (h1 : st.activeComposite = some (a, ia)) (h2 : a ≠ id) (h3 : id ∈ reg)
    (h4 : st.instantiatedCompositeItems.lookup id = none) :
    (∀ (reg' : List String) (dflt' lastId : String) (prog : CProg),
        CInv (runProg reg' dflt' prog (initialState lastId)))
    ∧ (openComposite reg dflt (fun s => s) id focus st).2.events
        = st.events ++ [.visibleChanged ia false, .didClose a, .visibleChanged st.nextInstance true]
          ++ (if focus then [.focused id] else []) ++ [.didOpen id focus]
    ∧ (openComposite reg dflt (fun s => s) id focus st).2.activeComposite
        = some (id, st.nextInstance) := by
  refine ⟨?_, open_deactivates_then_activates reg dflt id focus st a ia h1 h2 h3 h4⟩
  intro reg' dflt' lastId prog
  apply runProg_inv
  unfold CInv initialState
  exact ⟨rfl, rfl⟩

/-- C5 witness: opening `"b"` over the active `"a"` in a concrete state
emits the close-of-`"a"` events before the open-of-`"b"` events. -/
theorem c5_activation_exclusive_witness :
    sampleActiveState.activeComposite = some ("a", 0)
    ∧ ("a" : String) ≠ "b"
    ∧ (openComposite ["a", "b"] "dflt" (fun s => s) "b" true sampleActiveState).2.events
        = [.visibleChanged 0 false, .didClose "a", .visibleChanged 1 true,
           .focused "b", .didOpen "b" true] :=
  have h := c5_activation_exclusive ["a", "b"] "dflt" "b" true sampleActiveState "a" 0
    rfl (by decide) (by decide) rfl
  ⟨rfl, by decide, by simpa using h.2.1⟩
